import Mathlib

/-!
Shallow embedding of `hologram/pressure.py` (pressure dynamics engine):
`apply_activation`, `propagate_pressure`, `apply_decay`,
`redistribute_pressure`, `get_pressure_stats`.

Python floats are modelled as exact rationals (ℚ); Python dicts as
association lists in insertion order; a Python exception (the division by
`len(files)` in `redistribute_pressure`) is modelled by `Option`.
-/

namespace Hologram

/-- Modelled from the spec: `hologram/coordinates.py` is not under `src/`.
The spec only says `pressure_bucket` is "a deterministic quantization of
raw_pressure"; we model a fixed number of buckets. -/
def PRESSURE_BUCKETS : ℤ := 100

/-- Modelled from the spec: `hologram/coordinates.py` is not under `src/`.
HOT files are those whose quantized bucket reaches this threshold. -/
def HOT_THRESHOLD : ℤ := 80

/-- Modelled from the spec: `hologram/coordinates.py` is not under `src/`.
Deterministic quantization of a raw pressure into an integer bucket. -/
def quantize_pressure (p : ℚ) : ℤ :=
  max 0 (min (PRESSURE_BUCKETS - 1) ⌊p * (PRESSURE_BUCKETS - 1)⌋)

/-- Modelled from the spec: `hologram/system.py` is not under `src/`.
The spec's FileNode: raw_pressure, derived pressure_bucket, last_activated
turn and basin_depth (only the fields the pressure engine touches). -/
structure CognitiveFile where
  raw_pressure : ℚ
  pressure_bucket : ℤ
  last_activated : ℤ
  basin_depth : ℚ
deriving Repr, DecidableEq

/-- `PressureConfig` from `hologram/pressure.py`, defaults included. -/
structure PressureConfig where
  activation_boost : ℚ := 2/5
  edge_flow_rate : ℚ := 3/20
  flow_decay_per_hop : ℚ := 7/10
  max_propagation_hops : ℤ := 2
  decay_rate : ℚ := 17/20
  decay_immunity_turns : ℤ := 2
  enable_conservation : Bool := true
  total_pressure_budget : ℚ := 10
  hot_propagates : Bool := true
  min_pressure_to_propagate : ℚ := 4/5
deriving Repr, DecidableEq

/-- The file map `Dict[str, CognitiveFile]`, in insertion order. -/
abbrev Files := List (String × CognitiveFile)

/-- A delta dict `Dict[str, float]`, in insertion order. -/
abbrev Deltas := List (String × ℚ)

/-- Keys of an association list, in order. -/
def keysOf {β : Type} (l : List (String × β)) : List String :=
  l.map Prod.fst

/-- The keys are pairwise distinct (always true of a Python dict). -/
def NodupKeys {β : Type} (l : List (String × β)) : Prop :=
  (keysOf l).Nodup

/-- In-place update of the value at key `k` (Python `d[k] = v` for a key
already present; leaves the list unchanged when `k` is absent). -/
def setk {β : Type} (l : List (String × β)) (k : String) (v : β) :
    List (String × β) :=
  l.map (fun kv => if kv.1 = k then (k, v) else kv)

/-- Python `d[k] = v` on a dict: overwrite in place if present, else append. -/
def dinsert (m : Deltas) (k : String) (v : ℚ) : Deltas :=
  if (m.lookup k).isSome then setk m k v else m ++ [(k, v)]

/-- `defaultdict(float)` read: missing keys read as `0.0`. -/
def dget (m : Deltas) (k : String) : ℚ :=
  (m.lookup k).getD 0

/-- `deltas[k] += v` on a `defaultdict(float)`. -/
def addDelta (m : Deltas) (k : String) (v : ℚ) : Deltas :=
  dinsert m k (dget m k + v)

/-- The two-line idiom `f.raw_pressure = v; f.pressure_bucket =
quantize_pressure(f.raw_pressure)` used throughout `pressure.py`. -/
def updateRaw (f : CognitiveFile) (v : ℚ) : CognitiveFile :=
  { f with raw_pressure := v, pressure_bucket := quantize_pressure v }

/-- Conservation drain applied to one file in `apply_activation`:
`raw_pressure = max(0.0, old - drain_per_file)`. -/
def drainUpd (d : ℚ) (f : CognitiveFile) : CognitiveFile :=
  updateRaw f (max 0 (f.raw_pressure - d))

/-- Activation boost applied to one file in `apply_activation`:
`raw_pressure = min(1.0, old + activation_boost)`. -/
def boostUpd (b : ℚ) (f : CognitiveFile) : CognitiveFile :=
  updateRaw f (min 1 (f.raw_pressure + b))

/-- One loop iteration of the `apply_activation` loops: if `path` is in
the file map, update it with `upd` and record the pressure delta. -/
def stepUpd (upd : CognitiveFile → CognitiveFile) (fd : Files × Deltas)
    (path : String) : Files × Deltas :=
  match fd.1.lookup path with
  | none => fd
  | some f =>
      (setk fd.1 path (upd f),
       dinsert fd.2 path ((upd f).raw_pressure - f.raw_pressure))

/-- A `for path in paths:` loop applying `stepUpd` to each path. -/
def foldUpd (upd : CognitiveFile → CognitiveFile) (fd : Files × Deltas)
    (paths : List String) : Files × Deltas :=
  paths.foldl (stepUpd upd) fd

/-- `[p for p in files if p not in activated_paths]`. -/
def non_activated (files : Files) (activated_paths : List String) :
    List String :=
  (keysOf files).filter (fun p => !(activated_paths.contains p))

/-- `apply_activation` from `hologram/pressure.py`: boost activated files,
draining evenly from non-activated files when conservation is enabled.
Returns the updated file map and the delta dict. -/
def apply_activation (files : Files) (activated_paths : List String)
    (config : PressureConfig) : Files × Deltas :=
  if activated_paths.isEmpty then (files, [])
  else
    let total_boost : ℚ :=
      (activated_paths.length : ℚ) * config.activation_boost
    let fd1 : Files × Deltas :=
      if config.enable_conservation then
        let na := non_activated files activated_paths
        if !na.isEmpty then
          foldUpd (drainUpd (total_boost / (na.length : ℚ))) (files, []) na
        else (files, [])
      else (files, [])
    foldUpd (boostUpd config.activation_boost) fd1 activated_paths

/-- `weight = 1.0; if edge_weights and path in edge_weights: weight =
edge_weights[path].get(target_path, 1.0)` (a `None` edge_weights is the
empty list). -/
def edgeWeight (edge_weights : List (String × List (String × ℚ)))
    (path target : String) : ℚ :=
  match edge_weights.lookup path with
  | none => 1
  | some ws => (ws.lookup target).getD 1

/-- The inner `for target_path in outgoing:` loop of `propagate_pressure`:
skip unregistered targets, else credit the target with the flow and, when
conserving, debit the source. -/
def edgeStep (files : Files)
    (edge_weights : List (String × List (String × ℚ)))
    (config : PressureConfig) (path : String) (base_flow : ℚ)
    (d : Deltas) (target : String) : Deltas :=
  if (files.lookup target).isNone then d
  else
    let flow := base_flow * edgeWeight edge_weights path target
    let d1 := addDelta d target flow
    if config.enable_conservation then addDelta d1 path (-flow) else d1

/-- One iteration of the outer `for path, file in files.items():` loop of
`propagate_pressure`: hot guard, empty-outgoing guard, per-edge flow. -/
def sourceStep (files : Files) (adjacency : List (String × List String))
    (edge_weights : List (String × List (String × ℚ)))
    (config : PressureConfig) (deltas : Deltas)
    (pf : String × CognitiveFile) : Deltas :=
  if config.hot_propagates ∧
      pf.2.raw_pressure < config.min_pressure_to_propagate then deltas
  else
    let outgoing := (adjacency.lookup pf.1).getD []
    if outgoing.isEmpty then deltas
    else
      let base_flow :=
        if 1 < outgoing.length then
          config.edge_flow_rate / (outgoing.length : ℚ)
        else config.edge_flow_rate
      outgoing.foldl (edgeStep files edge_weights config pf.1 base_flow)
        deltas

/-- The final `for path, delta in deltas.items():` pass of
`propagate_pressure`: clamp each touched file into [0,1]. -/
def applyDeltas (files : Files) (deltas : Deltas) : Files :=
  deltas.foldl
    (fun fs pd =>
      match fs.lookup pd.1 with
      | none => fs
      | some f =>
          setk fs pd.1 (updateRaw f (max 0 (min 1 (f.raw_pressure + pd.2)))))
    files

/-- `propagate_pressure` from `hologram/pressure.py`: HOT files push
pressure along their outgoing edges; deltas are computed from the
pre-propagation pressures and applied in one final pass. -/
def propagate_pressure (files : Files)
    (adjacency : List (String × List String))
    (edge_weights : List (String × List (String × ℚ)))
    (config : PressureConfig) : Files × Deltas :=
  let deltas :=
    files.foldl (sourceStep files adjacency edge_weights config) []
  (applyDeltas files deltas, deltas)

/-- A file is immune to decay when it was activated within
`decay_immunity_turns` of the current turn. -/
def decayImmune (config : PressureConfig) (current_turn : ℤ)
    (f : CognitiveFile) : Prop :=
  current_turn - f.last_activated < config.decay_immunity_turns

instance (config : PressureConfig) (t : ℤ) (f : CognitiveFile) :
    Decidable (decayImmune config t f) := by
  unfold decayImmune; infer_instance

/-- `apply_decay` from `hologram/pressure.py`: every non-immune file's
pressure is multiplied by `decay_rate`; immune files are skipped. -/
def apply_decay (files : Files) (current_turn : ℤ)
    (config : PressureConfig) : Files × Deltas :=
  (files.map (fun pf =>
      (pf.1, if decayImmune config current_turn pf.2 then pf.2
             else updateRaw pf.2 (pf.2.raw_pressure * config.decay_rate))),
   files.filterMap (fun pf =>
      if decayImmune config current_turn pf.2 then none
      else some (pf.1,
        pf.2.raw_pressure * config.decay_rate - pf.2.raw_pressure)))

/-- `redistribute_pressure` from `hologram/pressure.py`. `none` models the
Python `ZeroDivisionError` raised by `total_pressure_budget / len(files)`
when the file map is empty (then `current_total == 0`). -/
def redistribute_pressure (files : Files) (config : PressureConfig) :
    Option Files :=
  if !config.enable_conservation then some files
  else
    let current_total := (files.map (fun pf => pf.2.raw_pressure)).sum
    if current_total = 0 then
      if files.length = 0 then none
      else
        let even_pressure := config.total_pressure_budget /
          (files.length : ℚ)
        some (files.map (fun pf => (pf.1, updateRaw pf.2 even_pressure)))
    else
      let scale := config.total_pressure_budget / current_total
      some (files.map (fun pf =>
        (pf.1, updateRaw pf.2 (min 1 (pf.2.raw_pressure * scale)))))

/-- Every file's raw pressure lies in [0,1] (the spec's boundedness
invariant). -/
def Bounded (files : Files) : Prop :=
  ∀ pf ∈ files, 0 ≤ pf.2.raw_pressure ∧ pf.2.raw_pressure ≤ 1

/-- Every file's pressure_bucket is `quantize_pressure` of its
raw_pressure (the spec's bucket-consistency invariant). -/
def BucketOK (files : Files) : Prop :=
  ∀ pf ∈ files, pf.2.pressure_bucket = quantize_pressure pf.2.raw_pressure

/-- Net effect of one edge of `propagate_pressure` on the delta of key
`t`: nothing for an unregistered target, otherwise the flow credited to
the target and (in conserving mode) debited from the source. -/
def edgeContrib (files : Files)
    (edge_weights : List (String × List (String × ℚ)))
    (config : PressureConfig) (path : String) (base_flow : ℚ)
    (target t : String) : ℚ :=
  if (files.lookup target).isNone then 0
  else
    let flow := base_flow * edgeWeight edge_weights path target
    (if t = target then flow else 0) +
      (if config.enable_conservation ∧ t = path then -flow else 0)

/-- Net effect of one source file on the delta of key `t`: zero unless
the source is hot enough and has outgoing edges; otherwise the sum of its
per-edge contributions, with the per-edge base flow equal to
`edge_flow_rate` split evenly over all outgoing edges. -/
def sourceContrib (files : Files)
    (adjacency : List (String × List String))
    (edge_weights : List (String × List (String × ℚ)))
    (config : PressureConfig) (pf : String × CognitiveFile) (t : String) :
    ℚ :=
  if config.hot_propagates ∧
      pf.2.raw_pressure < config.min_pressure_to_propagate then 0
  else
    let outgoing := (adjacency.lookup pf.1).getD []
    if outgoing.isEmpty then 0
    else
      let base_flow :=
        if 1 < outgoing.length then
          config.edge_flow_rate / (outgoing.length : ℚ)
        else config.edge_flow_rate
      (outgoing.map (fun target =>
        edgeContrib files edge_weights config pf.1 base_flow target t)).sum

/-- The stats dict returned by `get_pressure_stats`. -/
structure PressureStats where
  total_pressure : ℚ
  avg_pressure : ℚ
  max_pressure : ℚ
  min_pressure : ℚ
  hot_count : ℕ
  warm_count : ℕ
  cold_count : ℤ
deriving Repr, DecidableEq

/-- `get_pressure_stats` from `hologram/pressure.py`; the `if pressures
else 0` guards appear as `getD 0` on the empty list. -/
def get_pressure_stats (files : Files) : PressureStats :=
  let pressures := files.map (fun pf => pf.2.raw_pressure)
  let hot_count := files.countP
    (fun pf => decide (HOT_THRESHOLD ≤ pf.2.pressure_bucket))
  let warm_count := files.countP
    (fun pf => decide (20 ≤ pf.2.pressure_bucket) &&
               decide (pf.2.pressure_bucket < HOT_THRESHOLD))
  { total_pressure := pressures.sum
    avg_pressure :=
      if !pressures.isEmpty then pressures.sum / (pressures.length : ℚ)
      else 0
    max_pressure := pressures.max?.getD 0
    min_pressure := pressures.min?.getD 0
    hot_count := hot_count
    warm_count := warm_count
    cold_count := (files.length : ℤ) - hot_count - warm_count }

/-! ### Association-list lemmas -/

theorem lookup_cons {β : Type} (a k : String) (b : β) (es : List (String × β)) :
    ((k, b) :: es).lookup a = if a = k then some b else es.lookup a := by
  by_cases h : a = k
  · simp [List.lookup, h]
  · have hb : (a == k) = false := beq_eq_false_iff_ne.mpr h
    simp [List.lookup, hb, h]

theorem lookup_setk_ne {β : Type} (l : List (String × β)) (k p : String)
    (v : β) (h : p ≠ k) : (setk l k v).lookup p = l.lookup p := by
  induction l with
  | nil => rfl
  | cons kv rest ih =>
      obtain ⟨a, b⟩ := kv
      dsimp only [setk, List.map_cons]
      by_cases hk : a = k
      · rw [if_pos hk, lookup_cons, lookup_cons, if_neg h,
          if_neg (fun hpa => h (hpa.trans hk))]
        exact ih
      · rw [if_neg hk, lookup_cons, lookup_cons]
        by_cases hp : p = a
        · rw [if_pos hp, if_pos hp]
        · rw [if_neg hp, if_neg hp]
          exact ih

theorem lookup_setk_self {β : Type} (l : List (String × β)) (k : String)
    (v : β) :
    (setk l k v).lookup k = if (l.lookup k).isSome then some v else none := by
  induction l with
  | nil => rfl
  | cons kv rest ih =>
      obtain ⟨a, b⟩ := kv
      dsimp only [setk, List.map_cons]
      by_cases hk : a = k
      · rw [if_pos hk, lookup_cons, lookup_cons, if_pos rfl,
          if_pos hk.symm]
        simp
      · rw [if_neg hk, lookup_cons, lookup_cons, if_neg (Ne.symm hk),
          if_neg (Ne.symm hk)]
        exact ih

theorem keysOf_setk {β : Type} (l : List (String × β)) (k : String) (v : β) :
    keysOf (setk l k v) = keysOf l := by
  induction l with
  | nil => rfl
  | cons kv rest ih =>
      obtain ⟨a, b⟩ := kv
      dsimp only [setk, keysOf, List.map_cons]
      by_cases hk : a = k
      · rw [if_pos hk]
        dsimp only [keysOf, setk] at ih
        rw [ih, hk]
      · rw [if_neg hk]
        dsimp only [keysOf, setk] at ih
        rw [ih]

theorem mem_setk {β : Type} {l : List (String × β)} {k : String} {v : β}
    {pf : String × β} (h : pf ∈ setk l k v) : pf = (k, v) ∨ pf ∈ l := by
  simp only [setk, List.mem_map] at h
  obtain ⟨kv, hkv, heq⟩ := h
  by_cases hk : kv.1 = k
  · rw [if_pos hk] at heq
    exact Or.inl heq.symm
  · rw [if_neg hk] at heq
    exact Or.inr (heq ▸ hkv)

theorem lookup_mem {β : Type} {l : List (String × β)} {p : String} {v : β}
    (h : l.lookup p = some v) : (p, v) ∈ l := by
  induction l with
  | nil => simp [List.lookup] at h
  | cons kv rest ih =>
      obtain ⟨a, b⟩ := kv
      rw [lookup_cons] at h
      by_cases hp : p = a
      · rw [if_pos hp] at h
        subst hp
        simp only [Option.some.injEq] at h
        subst h
        exact List.mem_cons_self _ _
      · rw [if_neg hp] at h
        exact List.mem_cons_of_mem _ (ih h)

theorem lookup_isSome_iff {β : Type} (l : List (String × β)) (p : String) :
    (l.lookup p).isSome ↔ p ∈ keysOf l := by
  induction l with
  | nil => simp [List.lookup, keysOf]
  | cons kv rest ih =>
      obtain ⟨a, b⟩ := kv
      rw [lookup_cons]
      by_cases hp : p = a
      · simp [hp, keysOf]
      · simp only [if_neg hp, keysOf, List.map_cons, List.mem_cons]
        rw [ih]
        simp [keysOf, hp]

theorem lookup_eq_none_of_not_mem {β : Type} {l : List (String × β)}
    {p : String} (h : p ∉ keysOf l) : l.lookup p = none := by
  have := (lookup_isSome_iff l p).not.mpr h
  cases hl : l.lookup p with
  | none => rfl
  | some v => rw [hl] at this; simp at this

theorem lookup_append_of_none {β : Type} {l : List (String × β)}
    {p : String} (l2 : List (String × β)) (h : l.lookup p = none) :
    (l ++ l2).lookup p = l2.lookup p := by
  induction l with
  | nil => rfl
  | cons kv rest ih =>
      obtain ⟨a, b⟩ := kv
      rw [lookup_cons] at h
      by_cases hp : p = a
      · rw [if_pos hp] at h; simp at h
      · rw [if_neg hp] at h
        rw [List.cons_append, lookup_cons, if_neg hp]
        exact ih h

theorem lookup_dinsert_self (m : Deltas) (k : String) (v : ℚ) :
    (dinsert m k v).lookup k = some v := by
  unfold dinsert
  by_cases h : (m.lookup k).isSome
  · rw [if_pos h, lookup_setk_self, if_pos h]
  · rw [if_neg h]
    have hn : m.lookup k = none := by
      cases hm : m.lookup k with
      | none => rfl
      | some w => rw [hm] at h; simp at h
    rw [lookup_append_of_none _ hn, lookup_cons, if_pos rfl]

theorem lookup_dinsert_ne (m : Deltas) (k p : String) (v : ℚ)
    (h : p ≠ k) : (dinsert m k v).lookup p = m.lookup p := by
  unfold dinsert
  by_cases hs : (m.lookup k).isSome
  · rw [if_pos hs, lookup_setk_ne _ _ _ _ h]
  · rw [if_neg hs]
    cases hm : m.lookup p with
    | none => rw [lookup_append_of_none _ hm, lookup_cons, if_neg h]; rfl
    | some w =>
        induction m with
        | nil => simp [List.lookup] at hm
        | cons kv rest ih =>
            obtain ⟨a, b⟩ := kv
            rw [List.cons_append, lookup_cons]
            rw [lookup_cons] at hm
            by_cases hp : p = a
            · rw [if_pos hp]; rw [if_pos hp] at hm; exact hm
            · rw [if_neg hp]; rw [if_neg hp] at hm
              rw [lookup_cons] at hs
              by_cases hka : k = a
              · rw [if_pos hka] at hs; simp at hs
              · rw [if_neg hka] at hs
                exact ih hs hm

theorem dget_addDelta_self (m : Deltas) (k : String) (v : ℚ) :
    dget (addDelta m k v) k = dget m k + v := by
  unfold addDelta dget
  rw [lookup_dinsert_self]
  rfl

theorem dget_addDelta_ne (m : Deltas) (k p : String) (v : ℚ) (h : p ≠ k) :
    dget (addDelta m k v) p = dget m p := by
  unfold addDelta dget
  rw [lookup_dinsert_ne _ _ _ _ h]

theorem lookup_addDelta_ne (m : Deltas) (k p : String) (v : ℚ) (h : p ≠ k) :
    (addDelta m k v).lookup p = m.lookup p := by
  unfold addDelta
  exact lookup_dinsert_ne _ _ _ _ h

theorem lookup_dinsert_isSome {m : Deltas} {k p : String} {v : ℚ}
    (h : ((dinsert m k v).lookup p).isSome) :
    p = k ∨ (m.lookup p).isSome := by
  by_cases hp : p = k
  · exact Or.inl hp
  · rw [lookup_dinsert_ne _ _ _ _ hp] at h
    exact Or.inr h

theorem keysOf_append {β : Type} (l l2 : List (String × β)) :
    keysOf (l ++ l2) = keysOf l ++ keysOf l2 := by
  simp [keysOf]

theorem nodupKeys_dinsert {m : Deltas} (k : String) (v : ℚ)
    (h : NodupKeys m) : NodupKeys (dinsert m k v) := by
  unfold dinsert
  by_cases hs : (m.lookup k).isSome
  · rw [if_pos hs]
    unfold NodupKeys
    rw [keysOf_setk]
    exact h
  · rw [if_neg hs]
    unfold NodupKeys
    rw [keysOf_append]
    rw [List.nodup_append]
    refine ⟨h, List.nodup_singleton k, ?_⟩
    intro a ha hb
    simp only [keysOf, List.map_cons, List.map_nil, List.mem_singleton] at hb
    subst hb
    exact hs ((lookup_isSome_iff m a).mpr ha)

/-! ### foldUpd lemmas (the `apply_activation` loops) -/

theorem foldUpd_nil (u : CognitiveFile → CognitiveFile) (fd : Files × Deltas) :
    foldUpd u fd [] = fd := rfl

theorem foldUpd_cons (u : CognitiveFile → CognitiveFile)
    (fd : Files × Deltas) (q : String) (rest : List String) :
    foldUpd u fd (q :: rest) = foldUpd u (stepUpd u fd q) rest := rfl

theorem stepUpd_eq_of_none {u : CognitiveFile → CognitiveFile}
    {fd : Files × Deltas} {q : String} (h : fd.1.lookup q = none) :
    stepUpd u fd q = fd := by
  unfold stepUpd
  rw [h]

theorem stepUpd_lookup_ne (u : CognitiveFile → CognitiveFile)
    (fd : Files × Deltas) (q p : String) (h : p ≠ q) :
    (stepUpd u fd q).1.lookup p = fd.1.lookup p ∧
      (stepUpd u fd q).2.lookup p = fd.2.lookup p := by
  unfold stepUpd
  cases hq : fd.1.lookup q with
  | none => exact ⟨rfl, rfl⟩
  | some f => exact ⟨lookup_setk_ne _ _ _ _ h, lookup_dinsert_ne _ _ _ _ h⟩

theorem keysOf_stepUpd (u : CognitiveFile → CognitiveFile)
    (fd : Files × Deltas) (q : String) :
    keysOf (stepUpd u fd q).1 = keysOf fd.1 := by
  unfold stepUpd
  cases hq : fd.1.lookup q with
  | none => rfl
  | some f => exact keysOf_setk _ _ _

theorem foldUpd_lookup_of_not_mem (u : CognitiveFile → CognitiveFile)
    (fd : Files × Deltas) (ps : List String) (p : String) (h : p ∉ ps) :
    (foldUpd u fd ps).1.lookup p = fd.1.lookup p ∧
      (foldUpd u fd ps).2.lookup p = fd.2.lookup p := by
  induction ps generalizing fd with
  | nil => exact ⟨rfl, rfl⟩
  | cons q rest ih =>
      have hpq : p ≠ q := fun e => h (e ▸ List.mem_cons_self q rest)
      have hrest : p ∉ rest := fun hr => h (List.mem_cons_of_mem _ hr)
      rw [foldUpd_cons]
      obtain ⟨h1, h2⟩ := ih (stepUpd u fd q) hrest
      obtain ⟨h3, h4⟩ := stepUpd_lookup_ne u fd q p hpq
      exact ⟨h1.trans h3, h2.trans h4⟩

theorem keysOf_foldUpd (u : CognitiveFile → CognitiveFile)
    (fd : Files × Deltas) (ps : List String) :
    keysOf (foldUpd u fd ps).1 = keysOf fd.1 := by
  induction ps generalizing fd with
  | nil => rfl
  | cons q rest ih =>
      rw [foldUpd_cons]
      exact (ih (stepUpd u fd q)).trans (keysOf_stepUpd u fd q)

theorem foldUpd_lookup_of_mem (u : CognitiveFile → CognitiveFile)
    (fd : Files × Deltas) (ps : List String) (p : String) (f : CognitiveFile)
    (hnd : ps.Nodup) (hp : p ∈ ps) (hf : fd.1.lookup p = some f) :
    (foldUpd u fd ps).1.lookup p = some (u f) ∧
      (foldUpd u fd ps).2.lookup p =
        some ((u f).raw_pressure - f.raw_pressure) := by
  induction ps generalizing fd with
  | nil => cases hp
  | cons q rest ih =>
      rw [foldUpd_cons]
      rcases List.mem_cons.mp hp with hq | hq
      · subst hq
        have hrest : p ∉ rest := (List.nodup_cons.mp hnd).1
        obtain ⟨h1, h2⟩ := foldUpd_lookup_of_not_mem u (stepUpd u fd p) rest p hrest
        refine ⟨h1.trans ?_, h2.trans ?_⟩
        · unfold stepUpd
          rw [hf]
          dsimp only
          rw [lookup_setk_self, hf]
          rfl
        · unfold stepUpd
          rw [hf]
          dsimp only
          rw [lookup_dinsert_self]
      · have hpq : p ≠ q := by
          intro e
          subst e
          exact (List.nodup_cons.mp hnd).1 hq
        have hf2 : (stepUpd u fd q).1.lookup p = some f := by
          rw [(stepUpd_lookup_ne u fd q p hpq).1]
          exact hf
        exact ih (stepUpd u fd q) (List.nodup_cons.mp hnd).2 hq hf2

theorem stepUpd_preserve (P : CognitiveFile → Prop)
    (u : CognitiveFile → CognitiveFile) (hu : ∀ f, P f → P (u f))
    (fd : Files × Deltas) (q : String) (h : ∀ pf ∈ fd.1, P pf.2) :
    ∀ pf ∈ (stepUpd u fd q).1, P pf.2 := by
  unfold stepUpd
  cases hq : fd.1.lookup q with
  | none => exact h
  | some f =>
      intro pf hpf
      rcases mem_setk hpf with he | he
      · subst he
        exact hu f (h (q, f) (lookup_mem hq))
      · exact h pf he

theorem foldUpd_preserve (P : CognitiveFile → Prop)
    (u : CognitiveFile → CognitiveFile) (hu : ∀ f, P f → P (u f))
    (fd : Files × Deltas) (ps : List String) (h : ∀ pf ∈ fd.1, P pf.2) :
    ∀ pf ∈ (foldUpd u fd ps).1, P pf.2 := by
  induction ps generalizing fd with
  | nil => exact h
  | cons q rest ih =>
      rw [foldUpd_cons]
      exact ih (stepUpd u fd q) (stepUpd_preserve P u hu fd q h)

theorem stepUpd_delta_keys (u : CognitiveFile → CognitiveFile)
    (fd : Files × Deltas) (q : String)
    (h : ∀ p, ((fd.2.lookup p).isSome) → p ∈ keysOf fd.1) :
    ∀ p, (((stepUpd u fd q).2.lookup p).isSome) →
      p ∈ keysOf (stepUpd u fd q).1 := by
  intro p hp
  rw [keysOf_stepUpd]
  revert hp
  unfold stepUpd
  cases hq : fd.1.lookup q with
  | none => exact h p
  | some f =>
      intro hp
      dsimp only at hp
      rcases lookup_dinsert_isSome hp with he | he
      · subst he
        exact (lookup_isSome_iff fd.1 p).mp (by rw [hq]; rfl)
      · exact h p he

theorem foldUpd_delta_keys (u : CognitiveFile → CognitiveFile)
    (fd : Files × Deltas) (ps : List String)
    (h : ∀ p, ((fd.2.lookup p).isSome) → p ∈ keysOf fd.1) :
    ∀ p, (((foldUpd u fd ps).2.lookup p).isSome) →
      p ∈ keysOf (foldUpd u fd ps).1 := by
  induction ps generalizing fd with
  | nil => exact h
  | cons q rest ih =>
      rw [foldUpd_cons]
      exact ih (stepUpd u fd q) (stepUpd_delta_keys u fd q h)

theorem isSome_eq_of_keysOf_eq {β : Type} {l1 l2 : List (String × β)}
    (h : keysOf l1 = keysOf l2) (p : String) :
    (l1.lookup p).isSome = (l2.lookup p).isSome := by
  cases h1 : (l1.lookup p).isSome with
  | true =>
      have := (lookup_isSome_iff l1 p).mp (by rw [h1])
      rw [h] at this
      exact ((lookup_isSome_iff l2 p).mpr this).symm
  | false =>
      cases h2 : (l2.lookup p).isSome with
      | true =>
          have := (lookup_isSome_iff l2 p).mp (by rw [h2])
          rw [← h] at this
          have := (lookup_isSome_iff l1 p).mpr this
          rw [h1] at this
          cases this
      | false => rfl

theorem foldUpd_filter (u : CognitiveFile → CognitiveFile)
    (fd : Files × Deltas) (ps : List String) :
    foldUpd u fd ps =
      foldUpd u fd (ps.filter (fun p => (fd.1.lookup p).isSome)) := by
  induction ps generalizing fd with
  | nil => rfl
  | cons q rest ih =>
      rw [foldUpd_cons, List.filter_cons]
      by_cases hq : (fd.1.lookup q).isSome
      · rw [if_pos hq, foldUpd_cons]
        rw [ih (stepUpd u fd q)]
        congr 1
        apply List.filter_congr
        intro p _
        exact isSome_eq_of_keysOf_eq (keysOf_stepUpd u fd q) p
      · rw [if_neg hq]
        have hn : fd.1.lookup q = none := by
          cases hl : fd.1.lookup q with
          | none => rfl
          | some f => rw [hl] at hq; simp at hq
        rw [stepUpd_eq_of_none hn]
        exact ih fd

/-! ### Lemmas for the map-shaped operations (decay, redistribute) -/

theorem lookup_mapval {β γ : Type} (g : β → γ) (l : List (String × β))
    (p : String) :
    (l.map (fun pf => (pf.1, g pf.2))).lookup p = (l.lookup p).map g := by
  induction l with
  | nil => rfl
  | cons kv rest ih =>
      obtain ⟨a, b⟩ := kv
      dsimp only [List.map_cons]
      rw [lookup_cons, lookup_cons]
      by_cases hp : p = a
      · rw [if_pos hp, if_pos hp]
        rfl
      · rw [if_neg hp, if_neg hp]
        exact ih

theorem nodupKeys_cons {β : Type} {a : String} {b : β}
    {rest : List (String × β)} (h : NodupKeys ((a, b) :: rest)) :
    a ∉ keysOf rest ∧ NodupKeys rest := by
  unfold NodupKeys keysOf at *
  rw [List.map_cons, List.nodup_cons] at h
  exact h

theorem lookup_filterMap_of_not_mem {β : Type} (c : β → Prop)
    [DecidablePred c] (dv : β → ℚ) (l : List (String × β)) (p : String)
    (h : p ∉ keysOf l) :
    (l.filterMap (fun pf =>
      if c pf.2 then none else some (pf.1, dv pf.2))).lookup p = none := by
  induction l with
  | nil => rfl
  | cons kv rest ih =>
      obtain ⟨a, b⟩ := kv
      have hpa : p ≠ a := by
        intro e
        exact h (e ▸ List.mem_cons_self a (keysOf rest))
      have hrest : p ∉ keysOf rest := by
        intro hr
        exact h (List.mem_cons_of_mem _ hr)
      rw [List.filterMap_cons]
      dsimp only
      by_cases hc : c b
      · rw [if_pos hc]
        exact ih hrest
      · rw [if_neg hc, lookup_cons, if_neg hpa]
        exact ih hrest

theorem lookup_filterMap_decay {β : Type} (c : β → Prop) [DecidablePred c]
    (dv : β → ℚ) (l : List (String × β)) (p : String) (f : β)
    (hnd : NodupKeys l) (hf : l.lookup p = some f) :
    (l.filterMap (fun pf =>
      if c pf.2 then none else some (pf.1, dv pf.2))).lookup p =
      if c f then none else some (dv f) := by
  induction l with
  | nil => simp [List.lookup] at hf
  | cons kv rest ih =>
      obtain ⟨a, b⟩ := kv
      rw [lookup_cons] at hf
      rw [List.filterMap_cons]
      dsimp only
      by_cases hp : p = a
      · rw [if_pos hp] at hf
        injection hf with hf
        subst hf
        by_cases hc : c b
        · rw [if_pos hc, if_pos hc]
          exact lookup_filterMap_of_not_mem c dv rest p
            (by rw [hp]; exact (nodupKeys_cons hnd).1)
        · rw [if_neg hc, if_neg hc, lookup_cons, if_pos hp]
      · rw [if_neg hp] at hf
        by_cases hc : c b
        · rw [if_pos hc]
          exact ih (nodupKeys_cons hnd).2 hf
        · rw [if_neg hc, lookup_cons, if_neg hp]
          exact ih (nodupKeys_cons hnd).2 hf

/-! ### applyDeltas lemmas (final pass of `propagate_pressure`) -/

theorem applyDeltas_nil (fs : Files) : applyDeltas fs [] = fs := rfl

theorem applyDeltas_cons (fs : Files) (q : String) (d : ℚ) (rest : Deltas) :
    applyDeltas fs ((q, d) :: rest) =
      applyDeltas
        (match fs.lookup q with
         | none => fs
         | some f =>
             setk fs q (updateRaw f (max 0 (min 1 (f.raw_pressure + d)))))
        rest := rfl

theorem applyDeltas_lookup_of_not_mem (fs : Files) (ds : Deltas) (p : String)
    (h : p ∉ keysOf ds) : (applyDeltas fs ds).lookup p = fs.lookup p := by
  induction ds generalizing fs with
  | nil => rfl
  | cons qd rest ih =>
      obtain ⟨q, d⟩ := qd
      have hpq : p ≠ q := by
        intro e
        exact h (e ▸ List.mem_cons_self q (keysOf rest))
      have hrest : p ∉ keysOf rest := fun hr => h (List.mem_cons_of_mem _ hr)
      rw [applyDeltas_cons]
      cases hq : fs.lookup q with
      | none => exact ih fs hrest
      | some f =>
          rw [(ih _ hrest)]
          exact lookup_setk_ne _ _ _ _ hpq

theorem keysOf_applyDeltas (fs : Files) (ds : Deltas) :
    keysOf (applyDeltas fs ds) = keysOf fs := by
  induction ds generalizing fs with
  | nil => rfl
  | cons qd rest ih =>
      obtain ⟨q, d⟩ := qd
      rw [applyDeltas_cons]
      cases hq : fs.lookup q with
      | none => exact ih fs
      | some f => exact (ih _).trans (keysOf_setk _ _ _)

theorem applyDeltas_lookup (fs : Files) (ds : Deltas) (p : String)
    (f : CognitiveFile) (hnd : NodupKeys ds) (hf : fs.lookup p = some f) :
    (applyDeltas fs ds).lookup p =
      some ((ds.lookup p).elim f
        (fun d => updateRaw f (max 0 (min 1 (f.raw_pressure + d))))) := by
  induction ds generalizing fs with
  | nil => exact hf
  | cons qd rest ih =>
      obtain ⟨q, d⟩ := qd
      rw [applyDeltas_cons, lookup_cons]
      by_cases hp : p = q
      · subst hp
        rw [hf]
        dsimp only
        rw [if_pos rfl]
        have hrest : p ∉ keysOf rest := (nodupKeys_cons hnd).1
        rw [applyDeltas_lookup_of_not_mem _ _ _ hrest, lookup_setk_self, hf]
        rfl
      · rw [if_neg hp]
        cases hq : fs.lookup q with
        | none => exact ih fs (nodupKeys_cons hnd).2 hf
        | some g =>
            refine ih _ (nodupKeys_cons hnd).2 ?_
            rw [lookup_setk_ne _ _ _ _ hp]
            exact hf

theorem applyDeltas_preserve (P : CognitiveFile → Prop)
    (hP : ∀ f d, P (updateRaw f (max 0 (min 1 (f.raw_pressure + d)))))
    (fs : Files) (ds : Deltas) (h : ∀ pf ∈ fs, P pf.2) :
    ∀ pf ∈ applyDeltas fs ds, P pf.2 := by
  induction ds generalizing fs with
  | nil => exact h
  | cons qd rest ih =>
      obtain ⟨q, d⟩ := qd
      rw [applyDeltas_cons]
      cases hq : fs.lookup q with
      | none => exact ih fs h
      | some f =>
          refine ih _ ?_
          intro pf hpf
          rcases mem_setk hpf with he | he
          · subst he
            exact hP f d
          · exact h pf he

/-! ### Delta characterization of `propagate_pressure` -/

theorem dget_addDelta (m : Deltas) (k p : String) (v : ℚ) :
    dget (addDelta m k v) p = dget m p + (if p = k then v else 0) := by
  by_cases h : p = k
  · subst h
    rw [dget_addDelta_self, if_pos rfl]
  · rw [dget_addDelta_ne _ _ _ _ h, if_neg h]
    ring

theorem dget_edgeStep (files : Files)
    (edge_weights : List (String × List (String × ℚ)))
    (config : PressureConfig) (path : String) (base_flow : ℚ) (d : Deltas)
    (target t : String) :
    dget (edgeStep files edge_weights config path base_flow d target) t =
      dget d t + edgeContrib files edge_weights config path base_flow target t := by
  unfold edgeStep edgeContrib
  by_cases hu : (files.lookup target).isNone
  · rw [if_pos hu, if_pos hu]
    ring
  · rw [if_neg hu, if_neg hu]
    dsimp only
    by_cases hcons : config.enable_conservation
    · rw [if_pos hcons, dget_addDelta, dget_addDelta]
      by_cases h2 : t = path
      · rw [if_pos h2, if_pos (And.intro hcons h2)]
        ring
      · rw [if_neg h2,
          if_neg (show ¬(config.enable_conservation = true ∧ t = path) from
            fun hc => h2 hc.2)]
        ring
    · rw [if_neg hcons, dget_addDelta,
        if_neg (show ¬(config.enable_conservation = true ∧ t = path) from
          fun hc => hcons hc.1)]
      ring

theorem dget_edgeFold (files : Files)
    (edge_weights : List (String × List (String × ℚ)))
    (config : PressureConfig) (path : String) (base_flow : ℚ)
    (outgoing : List String) (d : Deltas) (t : String) :
    dget (outgoing.foldl (edgeStep files edge_weights config path base_flow) d) t =
      dget d t + (outgoing.map (fun target =>
        edgeContrib files edge_weights config path base_flow target t)).sum := by
  induction outgoing generalizing d with
  | nil => simp
  | cons tg rest ih =>
      rw [List.foldl_cons, List.map_cons, List.sum_cons, ih, dget_edgeStep]
      ring

theorem dget_sourceStep (files : Files)
    (adjacency : List (String × List String))
    (edge_weights : List (String × List (String × ℚ)))
    (config : PressureConfig) (d : Deltas) (pf : String × CognitiveFile)
    (t : String) :
    dget (sourceStep files adjacency edge_weights config d pf) t =
      dget d t + sourceContrib files adjacency edge_weights config pf t := by
  unfold sourceStep sourceContrib
  by_cases hhot : config.hot_propagates ∧
      pf.2.raw_pressure < config.min_pressure_to_propagate
  · rw [if_pos hhot, if_pos hhot]
    ring
  · rw [if_neg hhot, if_neg hhot]
    dsimp only
    by_cases hout : ((adjacency.lookup pf.1).getD []).isEmpty
    · rw [if_pos hout, if_pos hout]
      ring
    · rw [if_neg hout, if_neg hout]
      exact dget_edgeFold _ _ _ _ _ _ _ _

theorem dget_sourceFold (files : Files)
    (adjacency : List (String × List String))
    (edge_weights : List (String × List (String × ℚ)))
    (config : PressureConfig) (l : List (String × CognitiveFile))
    (d : Deltas) (t : String) :
    dget (l.foldl (sourceStep files adjacency edge_weights config) d) t =
      dget d t + (l.map (fun pf =>
        sourceContrib files adjacency edge_weights config pf t)).sum := by
  induction l generalizing d with
  | nil => simp
  | cons pf rest ih =>
      rw [List.foldl_cons, List.map_cons, List.sum_cons, ih, dget_sourceStep]
      ring

theorem lookup_edgeStep_of_not_key (files : Files)
    (edge_weights : List (String × List (String × ℚ)))
    (config : PressureConfig) (path : String) (base_flow : ℚ) (d : Deltas)
    (target q : String) (hq : q ∉ keysOf files) (hqp : q ≠ path) :
    (edgeStep files edge_weights config path base_flow d target).lookup q =
      d.lookup q := by
  unfold edgeStep
  by_cases hu : (files.lookup target).isNone
  · rw [if_pos hu]
  · rw [if_neg hu]
    have htq : q ≠ target := by
      intro e
      subst e
      apply hq
      rw [← lookup_isSome_iff]
      cases hl : files.lookup q with
      | none => rw [hl] at hu; exact absurd rfl hu
      | some f => rfl
    dsimp only
    by_cases hcons : config.enable_conservation
    · rw [if_pos hcons, lookup_addDelta_ne _ _ _ _ hqp,
        lookup_addDelta_ne _ _ _ _ htq]
    · rw [if_neg hcons, lookup_addDelta_ne _ _ _ _ htq]

theorem lookup_sourceStep_of_not_key (files : Files)
    (adjacency : List (String × List String))
    (edge_weights : List (String × List (String × ℚ)))
    (config : PressureConfig) (d : Deltas) (pf : String × CognitiveFile)
    (q : String) (hq : q ∉ keysOf files) (hqp : q ≠ pf.1) :
    (sourceStep files adjacency edge_weights config d pf).lookup q =
      d.lookup q := by
  unfold sourceStep
  by_cases hhot : config.hot_propagates ∧
      pf.2.raw_pressure < config.min_pressure_to_propagate
  · rw [if_pos hhot]
  · rw [if_neg hhot]
    dsimp only
    by_cases hout : ((adjacency.lookup pf.1).getD []).isEmpty
    · rw [if_pos hout]
    · rw [if_neg hout]
      generalize ((adjacency.lookup pf.1).getD []) = outgoing
      generalize (if 1 < outgoing.length then
        config.edge_flow_rate / (outgoing.length : ℚ)
        else config.edge_flow_rate) = bf
      induction outgoing generalizing d with
      | nil => rfl
      | cons tg rest ih =>
          rw [List.foldl_cons, ih]
          exact lookup_edgeStep_of_not_key _ _ _ _ _ _ _ _ hq hqp

theorem lookup_sourceFold_of_not_key (files : Files)
    (adjacency : List (String × List String))
    (edge_weights : List (String × List (String × ℚ)))
    (config : PressureConfig) (l : List (String × CognitiveFile))
    (d : Deltas) (q : String) (hq : q ∉ keysOf files)
    (hl : ∀ pf ∈ l, pf.1 ∈ keysOf files) :
    (l.foldl (sourceStep files adjacency edge_weights config) d).lookup q =
      d.lookup q := by
  induction l generalizing d with
  | nil => rfl
  | cons pf rest ih =>
      rw [List.foldl_cons]
      rw [ih (sourceStep files adjacency edge_weights config d pf)
        (fun x hx => hl x (List.mem_cons_of_mem _ hx))]
      refine lookup_sourceStep_of_not_key _ _ _ _ _ _ _ hq ?_
      intro e
      subst e
      exact hq (hl pf (List.mem_cons_self _ _))

theorem nodupKeys_edgeStep (files : Files)
    (edge_weights : List (String × List (String × ℚ)))
    (config : PressureConfig) (path : String) (base_flow : ℚ) (d : Deltas)
    (target : String) (h : NodupKeys d) :
    NodupKeys (edgeStep files edge_weights config path base_flow d target) := by
  unfold edgeStep
  by_cases hu : (files.lookup target).isNone
  · rw [if_pos hu]
    exact h
  · rw [if_neg hu]
    dsimp only
    by_cases hcons : config.enable_conservation
    · rw [if_pos hcons]
      exact nodupKeys_dinsert _ _ (nodupKeys_dinsert _ _ h)
    · rw [if_neg hcons]
      exact nodupKeys_dinsert _ _ h

theorem nodupKeys_sourceStep (files : Files)
    (adjacency : List (String × List String))
    (edge_weights : List (String × List (String × ℚ)))
    (config : PressureConfig) (d : Deltas) (pf : String × CognitiveFile)
    (h : NodupKeys d) :
    NodupKeys (sourceStep files adjacency edge_weights config d pf) := by
  unfold sourceStep
  by_cases hhot : config.hot_propagates ∧
      pf.2.raw_pressure < config.min_pressure_to_propagate
  · rw [if_pos hhot]
    exact h
  · rw [if_neg hhot]
    dsimp only
    by_cases hout : ((adjacency.lookup pf.1).getD []).isEmpty
    · rw [if_pos hout]
      exact h
    · rw [if_neg hout]
      generalize ((adjacency.lookup pf.1).getD []) = outgoing
      generalize (if 1 < outgoing.length then
        config.edge_flow_rate / (outgoing.length : ℚ)
        else config.edge_flow_rate) = bf
      induction outgoing generalizing d with
      | nil => exact h
      | cons tg rest ih =>
          rw [List.foldl_cons]
          exact ih _ (nodupKeys_edgeStep _ _ _ _ _ _ _ h)

theorem nodupKeys_sourceFold (files : Files)
    (adjacency : List (String × List String))
    (edge_weights : List (String × List (String × ℚ)))
    (config : PressureConfig) (l : List (String × CognitiveFile))
    (d : Deltas) (h : NodupKeys d) :
    NodupKeys (l.foldl (sourceStep files adjacency edge_weights config) d) := by
  induction l generalizing d with
  | nil => exact h
  | cons pf rest ih =>
      rw [List.foldl_cons]
      exact ih _ (nodupKeys_sourceStep _ _ _ _ _ _ h)

theorem isEmpty_false {α : Type} (l : List α) (h : l ≠ []) :
    l.isEmpty = false := by
  cases l with
  | nil => exact absurd rfl h
  | cons a rest => rfl

theorem mem_non_activated {files : Files} {acts : List String} {q : String} :
    q ∈ non_activated files acts ↔ q ∈ keysOf files ∧ q ∉ acts := by
  unfold non_activated
  rw [List.mem_filter]
  simp

/-! ### Claim theorems -/

/-- C6: the code is NOT total on the empty-map edge case: with conservation
enabled, `redistribute_pressure` on an empty file map divides
`total_pressure_budget` by `len(files) = 0` and raises ZeroDivisionError
(modelled as `none`), while the other guards do hold: `get_pressure_stats`
on an empty map returns zero statistics, `apply_activation` and
`apply_decay` on an empty map are no-ops, and a hot source with zero
outgoing edges propagates nothing. -/
theorem C6_edge_case_eval :
    redistribute_pressure [] {} = none ∧
    get_pressure_stats [] =
      { total_pressure := 0, avg_pressure := 0, max_pressure := 0,
        min_pressure := 0, hot_count := 0, warm_count := 0,
        cold_count := 0 } ∧
    apply_activation [] ["x"] {} = ([], []) ∧
    apply_decay [] 5 {} = ([], []) ∧
    propagate_pressure [("a", ⟨1, 99, 0, 1⟩)] [] [] {} =
      ([("a", ⟨1, 99, 0, 1⟩)], []) := by
  refine ⟨rfl, by decide, rfl, rfl, ?_⟩
  unfold propagate_pressure sourceStep applyDeltas
  norm_num

/-- C3: `apply_decay` in `pressure.py` multiplies every non-immune file by
the flat `decay_rate` and ignores `basin_depth`: on the repository's own
test input (two files at raw_pressure 0.9, basin depths 1.0 and 2.5, both
outside the immunity window at turn 10) both files end at exactly
0.9 * 0.85 = 153/200 — the deep-basin file is not strictly higher. -/
theorem C3_flat_decay_eval :
    (apply_decay
      [("shallow.md", ⟨9/10, 89, 0, 1⟩), ("deep.md", ⟨9/10, 89, 0, 5/2⟩)]
      10 {}).1 =
      [("shallow.md", ⟨153/200, 75, 0, 1⟩),
       ("deep.md", ⟨153/200, 75, 0, 5/2⟩)] ∧
    ¬ ((153 : ℚ)/200 > 153/200) := by
  have hq : quantize_pressure (153/200) = 75 := by
    unfold quantize_pressure PRESSURE_BUCKETS
    norm_num
  constructor
  · unfold apply_decay decayImmune
    norm_num [updateRaw]
    exact hq
  · simp

/-- C1 counterexample: from the in-range state of a single file at
raw_pressure 0, the even-redistribution branch of `redistribute_pressure`
(default config, budget 10) sets raw_pressure to 10, leaving [0,1]. -/
theorem C1_even_branch_unbounded :
    Bounded [("a", ⟨0, 0, 0, 1⟩)] ∧
    redistribute_pressure [("a", ⟨0, 0, 0, 1⟩)] {} =
      some [("a", ⟨10, 99, 0, 1⟩)] ∧
    ¬ Bounded [("a", ⟨10, 99, 0, 1⟩)] := by
  have hq : quantize_pressure 10 = 99 := by
    unfold quantize_pressure PRESSURE_BUCKETS
    norm_num
  refine ⟨?_, ?_, ?_⟩
  · intro pf hpf
    rcases List.mem_singleton.mp hpf with rfl
    constructor <;> norm_num
  · unfold redistribute_pressure
    norm_num
    simp [updateRaw, hq]
  · intro h
    have := (h ("a", ⟨10, 99, 0, 1⟩) (List.mem_singleton.mpr rfl)).2
    norm_num at this

/-- C2 counterexample: one file at raw_pressure 0.5 under the default
config (budget 10): the scaled pressure 0.5 * 20 = 10 is clamped at 1.0,
so the post-redistribution total is 1, which differs from the budget by 9,
not by less than 1e-6. -/
theorem C2_clamping_counterexample :
    redistribute_pressure [("a", ⟨1/2, 49, 0, 1⟩)] {} =
      some [("a", ⟨1, 99, 0, 1⟩)] ∧
    ¬ abs ((([("a", (⟨1, 99, 0, 1⟩ : CognitiveFile))] : Files).map
          (fun pf => pf.2.raw_pressure)).sum -
        ({} : PressureConfig).total_pressure_budget) <
      1/1000000 := by
  have hq : quantize_pressure 1 = 99 := by
    unfold quantize_pressure PRESSURE_BUCKETS
    norm_num
  constructor
  · unfold redistribute_pressure
    norm_num
    simp [updateRaw, hq]
  · intro h
    rw [show ((([("a", (⟨1, 99, 0, 1⟩ : CognitiveFile))] : Files).map
        (fun pf => pf.2.raw_pressure)).sum -
        ({} : PressureConfig).total_pressure_budget) = -9 by
      simp
      norm_num] at h
    rw [abs_neg, abs_of_nonneg (by norm_num : (0:ℚ) ≤ 9)] at h
    norm_num at h

/-- C7 counterexample: with conservation enabled (default config), the
unknown activated id "ghost" still counts in the drain total, so the
resulting state differs from the state produced with the unknown id
removed from the input (file "a" drops from 0.5 to 0.1 instead of staying
at 0.5). -/
theorem C7_unknown_drain_counterexample :
    (apply_activation [("a", ⟨1/2, 49, 0, 1⟩)] ["ghost"] {}).1 ≠
      (apply_activation [("a", ⟨1/2, 49, 0, 1⟩)]
        (["ghost"].filter (fun p =>
          (([("a", (⟨1/2, 49, 0, 1⟩ : CognitiveFile))] : Files).lookup
            p).isSome)) {}).1 := by
  have hq : quantize_pressure (1/10) = 9 := by
    unfold quantize_pressure PRESSURE_BUCKETS
    norm_num
  have hfil : (["ghost"].filter (fun p =>
      (([("a", (⟨1/2, 49, 0, 1⟩ : CognitiveFile))] : Files).lookup
        p).isSome)) = [] := by
    simp [lookup_cons]
  have h1 : (apply_activation [("a", ⟨1/2, 49, 0, 1⟩)] ["ghost"] {}).1 =
      [("a", ⟨1/10, 9, 0, 1⟩)] := by
    have hna : non_activated
        [("a", (⟨1/2, 49, 0, 1⟩ : CognitiveFile))] ["ghost"] = ["a"] := by
      simp [non_activated, keysOf]
    unfold apply_activation foldUpd
    rw [hna]
    norm_num [lookup_cons, setk, dinsert, dget, stepUpd, drainUpd, boostUpd,
      updateRaw, hq]
    simp
  rw [h1, hfil]
  intro h
  have h2 : (apply_activation [("a", ⟨1/2, 49, 0, 1⟩)] [] {}).1 =
      [("a", ⟨1/2, 49, 0, 1⟩)] := rfl
  rw [h2] at h
  simp only [List.cons.injEq, Prod.mk.injEq, CognitiveFile.mk.injEq] at h
  have := h.1.2.1
  norm_num at this

/-- C9: decay immunity frame — a file activated within
`decay_immunity_turns` of the current turn is left completely unchanged by
`apply_decay` (no delta entry is produced for it), while a non-immune file
has its pressure multiplied by `decay_rate` and gets the corresponding
delta entry. -/
theorem C9_decay_immunity (files : Files) (current_turn : ℤ)
    (config : PressureConfig) (p : String) (f : CognitiveFile)
    (hk : NodupKeys files) (hf : files.lookup p = some f) :
    (decayImmune config current_turn f →
      (apply_decay files current_turn config).1.lookup p = some f ∧
      (apply_decay files current_turn config).2.lookup p = none) ∧
    (¬ decayImmune config current_turn f →
      (apply_decay files current_turn config).1.lookup p =
        some (updateRaw f (f.raw_pressure * config.decay_rate)) ∧
      (apply_decay files current_turn config).2.lookup p =
        some (f.raw_pressure * config.decay_rate - f.raw_pressure)) := by
  have h1 : (apply_decay files current_turn config).1.lookup p =
      (files.lookup p).map (fun g =>
        if decayImmune config current_turn g then g
        else updateRaw g (g.raw_pressure * config.decay_rate)) :=
    lookup_mapval (fun g =>
        if decayImmune config current_turn g then g
        else updateRaw g (g.raw_pressure * config.decay_rate)) files p
  have h2 : (apply_decay files current_turn config).2.lookup p =
      if decayImmune config current_turn f then none
      else some (f.raw_pressure * config.decay_rate - f.raw_pressure) :=
    lookup_filterMap_decay (fun g => decayImmune config current_turn g)
      (fun g => g.raw_pressure * config.decay_rate - g.raw_pressure)
      files p f hk hf
  rw [hf] at h1
  constructor
  · intro him
    rw [h1, h2]
    simp [him]
  · intro him
    rw [h1, h2]
    simp [him]

/-- C9 witness: a concrete immune file ("a", activated on turn 9, decayed
on turn 10 with immunity window 2) is untouched, and a concrete non-immune
file ("b", activated on turn 0) is decayed. -/
theorem C9_decay_witness :
    NodupKeys [("a", (⟨1/2, 49, 9, 1⟩ : CognitiveFile)),
               ("b", ⟨1/2, 49, 0, 1⟩)] ∧
    (apply_decay [("a", ⟨1/2, 49, 9, 1⟩), ("b", ⟨1/2, 49, 0, 1⟩)]
        10 {}).1.lookup "a" = some ⟨1/2, 49, 9, 1⟩ ∧
    (apply_decay [("a", ⟨1/2, 49, 9, 1⟩), ("b", ⟨1/2, 49, 0, 1⟩)]
        10 {}).1.lookup "b" =
      some (updateRaw ⟨1/2, 49, 0, 1⟩ ((1:ℚ)/2 * (17/20))) := by
  have hk : NodupKeys [("a", (⟨1/2, 49, 9, 1⟩ : CognitiveFile)),
      ("b", ⟨1/2, 49, 0, 1⟩)] := by
    unfold NodupKeys keysOf
    decide
  refine ⟨hk, ?_, ?_⟩
  · exact ((C9_decay_immunity _ 10 {} "a" _ hk rfl).1
      (by unfold decayImmune; decide)).1
  · exact ((C9_decay_immunity _ 10 {} "b" _ hk rfl).2
      (by unfold decayImmune; decide)).1

/-- C4: activation semantics — the empty activation list is a no-op
returning an empty delta map; every activated path registered in the file
map is boosted by `activation_boost` clamped at 1.0; with conservation
enabled, a non-empty activation list and at least one non-activated file,
every non-activated file is drained by
`len(activated) * activation_boost / len(non_activated)` clamped at 0. -/
theorem C4_activation_spec (files : Files) (acts : List String)
    (config : PressureConfig) (hk : NodupKeys files) (hnd : acts.Nodup) :
    (apply_activation files [] config = (files, [])) ∧
    (∀ p f, p ∈ acts → files.lookup p = some f →
      (apply_activation files acts config).1.lookup p =
        some (boostUpd config.activation_boost f)) ∧
    (config.enable_conservation = true → acts ≠ [] →
      non_activated files acts ≠ [] →
      ∀ p f, p ∉ acts → files.lookup p = some f →
        (apply_activation files acts config).1.lookup p =
          some (drainUpd ((acts.length : ℚ) * config.activation_boost /
            ((non_activated files acts).length : ℚ)) f)) := by
  refine ⟨rfl, ?_, ?_⟩
  · intro p f hp hf
    have hne : acts.isEmpty = false :=
      isEmpty_false acts (fun e => by subst e; cases hp)
    have hpna : p ∉ non_activated files acts := by
      intro hmem
      exact (mem_non_activated.mp hmem).2 hp
    unfold apply_activation
    rw [hne]
    simp only [Bool.false_eq_true, if_false]
    by_cases hcons : config.enable_conservation = true
    · rw [if_pos hcons]
      by_cases hna : (non_activated files acts).isEmpty
      · rw [hna]
        simp only [Bool.not_true, Bool.false_eq_true, if_false]
        exact (foldUpd_lookup_of_mem _ _ acts p f hnd hp hf).1
      · rw [isEmpty_false (non_activated files acts)
          (fun e => hna (by rw [e]; rfl))]
        simp only [Bool.not_false, if_true]
        have hmid := (foldUpd_lookup_of_not_mem
          (drainUpd (((acts.length : ℚ) * config.activation_boost) /
            ((non_activated files acts).length : ℚ)))
          (files, []) (non_activated files acts) p hpna).1
        rw [hf] at hmid
        exact (foldUpd_lookup_of_mem _ _ acts p f hnd hp hmid).1
    · rw [if_neg hcons]
      exact (foldUpd_lookup_of_mem _ _ acts p f hnd hp hf).1
  · intro hcons hne hnane p f hp hf
    have hne2 : acts.isEmpty = false := isEmpty_false acts hne
    have hpna : p ∈ non_activated files acts :=
      mem_non_activated.mpr ⟨(lookup_isSome_iff files p).mp (by rw [hf]; rfl),
        hp⟩
    have hnanodup : (non_activated files acts).Nodup :=
      List.Nodup.filter _ hk
    unfold apply_activation
    rw [hne2]
    simp only [Bool.false_eq_true, if_false, if_pos hcons]
    rw [isEmpty_false (non_activated files acts) hnane]
    simp only [Bool.not_false, if_true]
    have hmid := (foldUpd_lookup_of_mem
      (drainUpd (((acts.length : ℚ) * config.activation_boost) /
        ((non_activated files acts).length : ℚ)))
      (files, []) (non_activated files acts) p f hnanodup hpna hf).1
    exact (foldUpd_lookup_of_not_mem _ _ acts p hp).1.trans hmid

/-- C4 witness: activating "a" in a two-file map with the default config
boosts "a" by 0.4 (clamped) and drains 0.4 from the single non-activated
file "b". -/
theorem C4_activation_witness :
    NodupKeys [("a", (⟨1/2, 49, 0, 1⟩ : CognitiveFile)),
               ("b", ⟨1/2, 49, 0, 1⟩)] ∧
    (apply_activation [("a", ⟨1/2, 49, 0, 1⟩), ("b", ⟨1/2, 49, 0, 1⟩)]
        ["a"] {}).1.lookup "a" =
      some (boostUpd (2/5) ⟨1/2, 49, 0, 1⟩) ∧
    (apply_activation [("a", ⟨1/2, 49, 0, 1⟩), ("b", ⟨1/2, 49, 0, 1⟩)]
        ["a"] {}).1.lookup "b" =
      some (drainUpd (((1:ℚ) * (2/5)) / (1 : ℚ)) ⟨1/2, 49, 0, 1⟩) := by
  have hk : NodupKeys [("a", (⟨1/2, 49, 0, 1⟩ : CognitiveFile)),
      ("b", ⟨1/2, 49, 0, 1⟩)] := by
    unfold NodupKeys keysOf
    decide
  have hspec := C4_activation_spec
    [("a", ⟨1/2, 49, 0, 1⟩), ("b", ⟨1/2, 49, 0, 1⟩)] ["a"] {} hk
    (List.nodup_singleton "a")
  refine ⟨hk, ?_, ?_⟩
  · exact hspec.2.1 "a" _ (List.mem_singleton.mpr rfl) rfl
  · have hdrain := hspec.2.2 rfl (by simp)
      (by unfold non_activated keysOf; decide) "b" ⟨1/2, 49, 0, 1⟩
      (by simp) rfl
    rw [hdrain]
    have hfl : List.filter (fun p => !decide (p = "a")) ["b"] = ["b"] := by
      simp
    norm_num [drainUpd, updateRaw, non_activated, keysOf, hfl]

/-- C8: bucket consistency — if every file's pressure_bucket equals
`quantize_pressure` of its raw_pressure, the same holds after each of
`apply_activation`, `propagate_pressure`, `apply_decay`, and (whenever it
returns) `redistribute_pressure`: every update in `pressure.py` writes
`raw_pressure` and immediately recomputes `pressure_bucket`. -/
theorem C8_bucket_invariant (files : Files) (config : PressureConfig)
    (hB : BucketOK files) :
    (∀ acts, BucketOK (apply_activation files acts config).1) ∧
    (∀ adjacency edge_weights,
      BucketOK (propagate_pressure files adjacency edge_weights config).1) ∧
    (∀ current_turn, BucketOK (apply_decay files current_turn config).1) ∧
    (∀ fs', redistribute_pressure files config = some fs' →
      BucketOK fs') := by
  have hupd : ∀ (g : CognitiveFile) (v : ℚ),
      (updateRaw g v).pressure_bucket =
        quantize_pressure (updateRaw g v).raw_pressure := fun g v => rfl
  refine ⟨?_, ?_, ?_, ?_⟩
  · intro acts
    by_cases hne : acts.isEmpty
    · unfold apply_activation
      rw [hne]
      simpa using hB
    · rw [Bool.not_eq_true] at hne
      unfold apply_activation
      rw [hne]
      simp only [Bool.false_eq_true, if_false]
      have hfd1 : ∀ fd1 : Files × Deltas, (∀ pf ∈ fd1.1,
          pf.2.pressure_bucket = quantize_pressure pf.2.raw_pressure) →
          BucketOK (foldUpd (boostUpd config.activation_boost)
            fd1 acts).1 := by
        intro fd1 h1
        exact foldUpd_preserve (fun g => g.pressure_bucket = quantize_pressure g.raw_pressure)
          _ (fun f _ => hupd f _) fd1 acts h1
      by_cases hcons : config.enable_conservation = true
      · rw [if_pos hcons]
        by_cases hna : (non_activated files acts).isEmpty
        · rw [hna]
          simp only [Bool.not_true, Bool.false_eq_true, if_false]
          exact hfd1 (files, []) hB
        · rw [Bool.not_eq_true] at hna
          rw [hna]
          simp only [Bool.not_false, if_true]
          exact hfd1 _ (foldUpd_preserve (fun g => g.pressure_bucket = quantize_pressure g.raw_pressure)
            _ (fun f _ => hupd f _)
            (files, []) (non_activated files acts) hB)
      · rw [if_neg hcons]
        exact hfd1 (files, []) hB
  · intro adjacency edge_weights
    unfold propagate_pressure
    exact applyDeltas_preserve (fun g => g.pressure_bucket = quantize_pressure g.raw_pressure)
      (fun f d => hupd f _) files _ hB
  · intro current_turn
    intro pf hpf
    unfold apply_decay at hpf
    simp only [List.mem_map] at hpf
    obtain ⟨kv, hkv, rfl⟩ := hpf
    by_cases him : decayImmune config current_turn kv.2
    · simp only [if_pos him]
      exact hB kv hkv
    · simp only [if_neg him]
      exact hupd kv.2 _
  · intro fs' h
    unfold redistribute_pressure at h
    by_cases hcons : config.enable_conservation = true
    · rw [hcons] at h
      simp only [Bool.not_true, Bool.false_eq_true, if_false] at h
      by_cases htot : (files.map (fun pf => pf.2.raw_pressure)).sum = 0
      · rw [if_pos htot] at h
        by_cases hlen : files.length = 0
        · rw [if_pos hlen] at h
          cases h
        · rw [if_neg hlen] at h
          injection h with h
          subst h
          intro pf hpf
          simp only [List.mem_map] at hpf
          obtain ⟨kv, hkv, rfl⟩ := hpf
          exact hupd kv.2 _
      · rw [if_neg htot] at h
        injection h with h
        subst h
        intro pf hpf
        simp only [List.mem_map] at hpf
        obtain ⟨kv, hkv, rfl⟩ := hpf
        exact hupd kv.2 _
    · rw [Bool.not_eq_true] at hcons
      rw [hcons] at h
      simp only [Bool.not_false, if_true] at h
      injection h with h
      subst h
      exact hB

/-- C8 witness: the invariant instantiated on a concrete two-file map,
activating "a" under the default config. -/
theorem C8_bucket_witness :
    BucketOK [("a", (⟨1/2, 49, 0, 1⟩ : CognitiveFile)),
              ("b", ⟨9/10, 89, 0, 1⟩)] ∧
    BucketOK (apply_activation
      [("a", ⟨1/2, 49, 0, 1⟩), ("b", ⟨9/10, 89, 0, 1⟩)] ["a"] {}).1 := by
  have hB : BucketOK [("a", (⟨1/2, 49, 0, 1⟩ : CognitiveFile)),
      ("b", ⟨9/10, 89, 0, 1⟩)] := by
    intro pf hpf
    have hq1 : quantize_pressure (1/2) = 49 := by
      unfold quantize_pressure PRESSURE_BUCKETS
      norm_num
    have hq2 : quantize_pressure (9/10) = 89 := by
      unfold quantize_pressure PRESSURE_BUCKETS
      norm_num
    rcases List.mem_cons.mp hpf with rfl | hpf2
    · exact hq1.symm
    · rcases List.mem_singleton.mp hpf2 with rfl
      exact hq2.symm
  exact ⟨hB, (C8_bucket_invariant _ {} hB).1 ["a"]⟩

theorem drainUpd_bounds {d : ℚ} (hd : 0 ≤ d) {f : CognitiveFile}
    (h : 0 ≤ f.raw_pressure ∧ f.raw_pressure ≤ 1) :
    0 ≤ (drainUpd d f).raw_pressure ∧ (drainUpd d f).raw_pressure ≤ 1 := by
  unfold drainUpd updateRaw
  refine ⟨le_max_left _ _, ?_⟩
  apply max_le (by norm_num)
  linarith [h.2]

theorem boostUpd_bounds {b : ℚ} (hb : 0 ≤ b) {f : CognitiveFile}
    (h : 0 ≤ f.raw_pressure ∧ f.raw_pressure ≤ 1) :
    0 ≤ (boostUpd b f).raw_pressure ∧ (boostUpd b f).raw_pressure ≤ 1 := by
  unfold boostUpd updateRaw
  refine ⟨le_min (by norm_num) (by linarith [h.1]), min_le_left _ _⟩

theorem clamp_bounds (f : CognitiveFile) (d : ℚ) :
    0 ≤ (updateRaw f (max 0 (min 1 (f.raw_pressure + d)))).raw_pressure ∧
    (updateRaw f (max 0 (min 1 (f.raw_pressure + d)))).raw_pressure ≤ 1 := by
  unfold updateRaw
  exact ⟨le_max_left _ _, max_le (by norm_num) (min_le_left _ _)⟩

/-- C1 (amended): boundedness — from a state with every raw_pressure in
[0,1], `apply_activation` (nonnegative boost), `propagate_pressure`
(unconditionally, both ends are clamped), `apply_decay` (decay rate in
[0,1]) and `redistribute_pressure` (nonnegative budget) keep every
raw_pressure in [0,1], with the one exception the counterexample forces:
the even-redistribution branch, which runs when the total pressure is
exactly zero, is bounded only when the budget does not exceed the number
of files. -/
theorem C1_boundedness_amended (files : Files) (config : PressureConfig)
    (hB : Bounded files) :
    (0 ≤ config.activation_boost →
      ∀ acts, Bounded (apply_activation files acts config).1) ∧
    (∀ adjacency edge_weights,
      Bounded (propagate_pressure files adjacency edge_weights config).1) ∧
    (0 ≤ config.decay_rate → config.decay_rate ≤ 1 →
      ∀ current_turn, Bounded (apply_decay files current_turn config).1) ∧
    (0 ≤ config.total_pressure_budget →
      ((files.map (fun pf => pf.2.raw_pressure)).sum = 0 →
        config.total_pressure_budget ≤ (files.length : ℚ)) →
      ∀ fs', redistribute_pressure files config = some fs' →
        Bounded fs') := by
  refine ⟨?_, ?_, ?_, ?_⟩
  · intro hboost acts
    by_cases hne : acts.isEmpty
    · unfold apply_activation
      rw [hne]
      simpa using hB
    · rw [Bool.not_eq_true] at hne
      unfold apply_activation
      rw [hne]
      simp only [Bool.false_eq_true, if_false]
      have hfd1 : ∀ fd1 : Files × Deltas, (∀ pf ∈ fd1.1,
          0 ≤ pf.2.raw_pressure ∧ pf.2.raw_pressure ≤ 1) →
          Bounded (foldUpd (boostUpd config.activation_boost)
            fd1 acts).1 := by
        intro fd1 h1
        exact foldUpd_preserve
          (fun g => 0 ≤ g.raw_pressure ∧ g.raw_pressure ≤ 1)
          _ (fun f hf => boostUpd_bounds hboost hf) fd1 acts h1
      have hd0 : 0 ≤ ((acts.length : ℚ) * config.activation_boost) /
          ((non_activated files acts).length : ℚ) :=
        div_nonneg (mul_nonneg (Nat.cast_nonneg _) hboost)
          (Nat.cast_nonneg _)
      by_cases hcons : config.enable_conservation = true
      · rw [if_pos hcons]
        by_cases hna : (non_activated files acts).isEmpty
        · rw [hna]
          simp only [Bool.not_true, Bool.false_eq_true, if_false]
          exact hfd1 (files, []) hB
        · rw [Bool.not_eq_true] at hna
          rw [hna]
          simp only [Bool.not_false, if_true]
          exact hfd1 _ (foldUpd_preserve
            (fun g => 0 ≤ g.raw_pressure ∧ g.raw_pressure ≤ 1)
            _ (fun f hf => drainUpd_bounds hd0 hf)
            (files, []) (non_activated files acts) hB)
      · rw [if_neg hcons]
        exact hfd1 (files, []) hB
  · intro adjacency edge_weights
    unfold propagate_pressure
    exact applyDeltas_preserve
      (fun g => 0 ≤ g.raw_pressure ∧ g.raw_pressure ≤ 1)
      (fun f d => clamp_bounds f d) files _ hB
  · intro h0 h1 current_turn
    intro pf hpf
    unfold apply_decay at hpf
    simp only [List.mem_map] at hpf
    obtain ⟨kv, hkv, rfl⟩ := hpf
    by_cases him : decayImmune config current_turn kv.2
    · simp only [if_pos him]
      exact hB kv hkv
    · simp only [if_neg him]
      have hkb := hB kv hkv
      unfold updateRaw
      exact ⟨mul_nonneg hkb.1 h0, mul_le_one₀ hkb.2 h0 h1⟩
  · intro hbud hbudlen fs' h
    unfold redistribute_pressure at h
    by_cases hcons : config.enable_conservation = true
    · rw [hcons] at h
      simp only [Bool.not_true, Bool.false_eq_true, if_false] at h
      by_cases htot : (files.map (fun pf => pf.2.raw_pressure)).sum = 0
      · rw [if_pos htot] at h
        by_cases hlen : files.length = 0
        · rw [if_pos hlen] at h
          cases h
        · rw [if_neg hlen] at h
          injection h with h
          subst h
          have hlpos : (0 : ℚ) < (files.length : ℚ) := by
            have : 0 < files.length := Nat.pos_of_ne_zero hlen
            exact_mod_cast this
          intro pf hpf
          simp only [List.mem_map] at hpf
          obtain ⟨kv, hkv, rfl⟩ := hpf
          unfold updateRaw
          refine ⟨div_nonneg hbud (le_of_lt hlpos), ?_⟩
          rw [div_le_one hlpos]
          exact hbudlen htot
      · rw [if_neg htot] at h
        injection h with h
        subst h
        have htotpos : 0 < (files.map (fun pf => pf.2.raw_pressure)).sum := by
          rcases lt_or_eq_of_le (List.sum_nonneg (by
            intro x hx
            obtain ⟨kv, hkv, rfl⟩ := List.mem_map.mp hx
            exact (hB kv hkv).1)) with hlt | heq
          · exact hlt
          · exact absurd heq.symm htot
        intro pf hpf
        simp only [List.mem_map] at hpf
        obtain ⟨kv, hkv, rfl⟩ := hpf
        unfold updateRaw
        refine ⟨le_min (by norm_num) ?_, min_le_left _ _⟩
        exact mul_nonneg (hB kv hkv).1
          (div_nonneg hbud (le_of_lt htotpos))
    · rw [Bool.not_eq_true] at hcons
      rw [hcons] at h
      simp only [Bool.not_false, if_true] at h
      injection h with h
      subst h
      exact hB

/-- C1 witness: the amended boundedness instantiated on a concrete
two-file map under the default config (boost 2/5 ≥ 0), activating "a". -/
theorem C1_boundedness_witness :
    Bounded [("a", (⟨1/2, 49, 0, 1⟩ : CognitiveFile)),
             ("b", ⟨9/10, 89, 0, 1⟩)] ∧
    Bounded (apply_activation
      [("a", ⟨1/2, 49, 0, 1⟩), ("b", ⟨9/10, 89, 0, 1⟩)] ["a"] {}).1 := by
  have hB : Bounded [("a", (⟨1/2, 49, 0, 1⟩ : CognitiveFile)),
      ("b", ⟨9/10, 89, 0, 1⟩)] := by
    intro pf hpf
    rcases List.mem_cons.mp hpf with rfl | hpf2
    · constructor <;> norm_num
    · rcases List.mem_singleton.mp hpf2 with rfl
      constructor <;> norm_num
  exact ⟨hB, (C1_boundedness_amended _ {} hB).1 (by norm_num) ["a"]⟩

/-- C2 (amended): conservation — immediately after `redistribute_pressure`
with conservation enabled on a non-empty file map, the sum of all
raw_pressure equals `total_pressure_budget` exactly (so in particular
within 1e-6), PROVIDED no file's scaled pressure exceeds 1.0 when the
total is nonzero; the zero-total even branch restores the budget
unconditionally. When clamping occurs the sum falls short of the budget
(see the counterexample). -/
theorem C2_conservation_amended (files : Files) (config : PressureConfig)
    (hcons : config.enable_conservation = true) (hne : files ≠ [])
    (hclamp : (files.map (fun pf => pf.2.raw_pressure)).sum ≠ 0 →
      ∀ pf ∈ files, pf.2.raw_pressure *
        (config.total_pressure_budget /
          (files.map (fun pf => pf.2.raw_pressure)).sum) ≤ 1) :
    ∀ fs', redistribute_pressure files config = some fs' →
      (fs'.map (fun pf => pf.2.raw_pressure)).sum =
        config.total_pressure_budget := by
  intro fs' h
  unfold redistribute_pressure at h
  rw [hcons] at h
  simp only [Bool.not_true, Bool.false_eq_true, if_false] at h
  have hlen : files.length ≠ 0 := fun e => hne (List.length_eq_zero.mp e)
  have hlq : ((files.length : ℚ)) ≠ 0 := Nat.cast_ne_zero.mpr hlen
  by_cases htot : (files.map (fun pf => pf.2.raw_pressure)).sum = 0
  · rw [if_pos htot, if_neg hlen] at h
    injection h with h
    subst h
    rw [List.map_map]
    show (files.map (fun _ =>
      config.total_pressure_budget / (files.length : ℚ))).sum =
      config.total_pressure_budget
    rw [List.map_const', List.sum_replicate, nsmul_eq_mul]
    field_simp
  · rw [if_neg htot] at h
    injection h with h
    subst h
    rw [List.map_map]
    have hcong : files.map ((fun pf => pf.2.raw_pressure) ∘
        (fun pf => (pf.1, updateRaw pf.2 (min 1 (pf.2.raw_pressure *
          (config.total_pressure_budget /
            (files.map (fun pf => pf.2.raw_pressure)).sum)))))) =
        files.map (fun pf => pf.2.raw_pressure *
          (config.total_pressure_budget /
            (files.map (fun pf => pf.2.raw_pressure)).sum)) := by
      apply List.map_congr_left
      intro pf hpf
      exact min_eq_right (hclamp htot pf hpf)
    rw [hcong, List.sum_map_mul_right]
    field_simp

/-- C2 witness: two files at raw_pressure 1/4 with budget 1 (conservation
enabled): the total 1/2 is scaled by 2 with no clamping, and the result of
`redistribute_pressure` sums exactly to the budget. -/
theorem C2_conservation_witness :
    redistribute_pressure
        [("a", (⟨1/4, 24, 0, 1⟩ : CognitiveFile)), ("b", ⟨1/4, 24, 0, 1⟩)]
        { total_pressure_budget := 1 } =
      some [("a", ⟨1/2, 49, 0, 1⟩), ("b", ⟨1/2, 49, 0, 1⟩)] ∧
    (([("a", (⟨1/2, 49, 0, 1⟩ : CognitiveFile)),
       ("b", ⟨1/2, 49, 0, 1⟩)] : Files).map
      (fun pf => pf.2.raw_pressure)).sum =
      ({ total_pressure_budget := 1 } :
        PressureConfig).total_pressure_budget := by
  have hq : quantize_pressure (1/2) = 49 := by
    unfold quantize_pressure PRESSURE_BUCKETS
    norm_num
  have heval : redistribute_pressure
      [("a", (⟨1/4, 24, 0, 1⟩ : CognitiveFile)), ("b", ⟨1/4, 24, 0, 1⟩)]
      { total_pressure_budget := 1 } =
      some [("a", ⟨1/2, 49, 0, 1⟩), ("b", ⟨1/2, 49, 0, 1⟩)] := by
    unfold redistribute_pressure
    norm_num
    simp [updateRaw, hq]
    rw [show ((2 : ℚ)⁻¹) = 1/2 by norm_num]
    exact hq
  refine ⟨heval, ?_⟩
  exact C2_conservation_amended
    [("a", (⟨1/4, 24, 0, 1⟩ : CognitiveFile)), ("b", ⟨1/4, 24, 0, 1⟩)]
    { total_pressure_budget := 1 } rfl (by simp)
    (by
      intro htot pf hpf
      rcases List.mem_cons.mp hpf with rfl | hpf2
      · norm_num
      · rcases List.mem_singleton.mp hpf2 with rfl
        norm_num)
    [("a", ⟨1/2, 49, 0, 1⟩), ("b", ⟨1/2, 49, 0, 1⟩)] heval

/-- C7 (amended): unknown ids never raise and are skipped locally — they
create no file entry and no delta entry in `apply_activation` or
`propagate_pressure` (the key set of the file map is unchanged and deltas
mention only registered files), and with conservation disabled the result
of `apply_activation` is exactly the result on the input with unknown ids
removed. With conservation enabled the resulting state may differ from
"unknown ids removed", because unknown activated ids still count in the
drain total (see the counterexample). -/
theorem C7_unknown_ids_amended (files : Files) (acts : List String)
    (adjacency : List (String × List String))
    (edge_weights : List (String × List (String × ℚ)))
    (config : PressureConfig) :
    (keysOf (apply_activation files acts config).1 = keysOf files) ∧
    (∀ p, p ∉ keysOf files →
      (apply_activation files acts config).2.lookup p = none) ∧
    (keysOf (propagate_pressure files adjacency edge_weights config).1 =
      keysOf files) ∧
    (∀ p, p ∉ keysOf files →
      (propagate_pressure files adjacency edge_weights config).2.lookup p =
        none) ∧
    (config.enable_conservation = false →
      apply_activation files acts config =
        apply_activation files
          (acts.filter (fun p => (files.lookup p).isSome)) config) := by
  refine ⟨?_, ?_, ?_, ?_, ?_⟩
  · by_cases hne : acts.isEmpty
    · unfold apply_activation
      rw [hne]
      simp
    · rw [Bool.not_eq_true] at hne
      unfold apply_activation
      rw [hne]
      simp only [Bool.false_eq_true, if_false]
      rw [keysOf_foldUpd]
      by_cases hcons : config.enable_conservation = true
      · rw [if_pos hcons]
        by_cases hna : (non_activated files acts).isEmpty
        · rw [hna]
          simp only [Bool.not_true, Bool.false_eq_true, if_false]
        · rw [Bool.not_eq_true] at hna
          rw [hna]
          simp only [Bool.not_false, if_true]
          exact keysOf_foldUpd _ _ _
      · rw [if_neg hcons]
  · intro p hp
    by_cases hne : acts.isEmpty
    · unfold apply_activation
      rw [hne]
      simp
    · rw [Bool.not_eq_true] at hne
      unfold apply_activation
      rw [hne]
      simp only [Bool.false_eq_true, if_false]
      have main : ∀ fd1 : Files × Deltas, keysOf fd1.1 = keysOf files →
          (∀ q, ((fd1.2.lookup q).isSome) → q ∈ keysOf fd1.1) →
          ((foldUpd (boostUpd config.activation_boost)
            fd1 acts).2.lookup p) = none := by
        intro fd1 hkeys hinv
        cases hl : (foldUpd (boostUpd config.activation_boost)
            fd1 acts).2.lookup p with
        | none => rfl
        | some v =>
            exfalso
            have h1 := foldUpd_delta_keys _ fd1 acts hinv p (by rw [hl]; rfl)
            rw [keysOf_foldUpd, hkeys] at h1
            exact hp h1
      have hbase : ∀ q, ((([] : Deltas).lookup q).isSome) →
          q ∈ keysOf files := by
        intro q hq
        simp [List.lookup] at hq
      by_cases hcons : config.enable_conservation = true
      · rw [if_pos hcons]
        by_cases hna : (non_activated files acts).isEmpty
        · rw [hna]
          simp only [Bool.not_true, Bool.false_eq_true, if_false]
          exact main (files, []) rfl hbase
        · rw [Bool.not_eq_true] at hna
          rw [hna]
          simp only [Bool.not_false, if_true]
          refine main _ (keysOf_foldUpd _ _ _) ?_
          exact foldUpd_delta_keys _ (files, [])
            (non_activated files acts) hbase
      · rw [if_neg hcons]
        exact main (files, []) rfl hbase
  · exact keysOf_applyDeltas files _
  · intro p hp
    exact lookup_sourceFold_of_not_key files adjacency edge_weights config
      files [] p hp (fun pf hpf => List.mem_map_of_mem _ hpf)
  · intro hcoff
    have key : ∀ bs : List String,
        apply_activation files bs config =
        if bs.isEmpty then (files, [])
        else foldUpd (boostUpd config.activation_boost) (files, []) bs := by
      intro bs
      unfold apply_activation
      by_cases hb : bs.isEmpty
      · rw [hb]
        simp
      · rw [Bool.not_eq_true] at hb
        rw [hb]
        simp only [Bool.false_eq_true, if_false]
        rw [hcoff]
        simp only [Bool.false_eq_true, if_false]
    rw [key acts, key (acts.filter (fun p => (files.lookup p).isSome))]
    by_cases hb : acts.isEmpty
    · have hbe : acts = [] := by
        cases acts with
        | nil => rfl
        | cons a rest => simp [List.isEmpty] at hb
      subst hbe
      simp
    · rw [Bool.not_eq_true] at hb
      rw [hb]
      simp only [Bool.false_eq_true, if_false]
      have hpred : (fun p => (((files, ([] : Deltas)).1).lookup p).isSome) =
          (fun p => (files.lookup p).isSome) := rfl
      have hfil := foldUpd_filter (boostUpd config.activation_boost)
        (files, ([] : Deltas)) acts
      rw [hpred] at hfil
      rw [hfil]
      by_cases hfe : (acts.filter (fun p => (files.lookup p).isSome)).isEmpty
      · have : acts.filter (fun p => (files.lookup p).isSome) = [] := by
          cases hlist : acts.filter (fun p => (files.lookup p).isSome) with
          | nil => rfl
          | cons a rest => rw [hlist] at hfe; simp [List.isEmpty] at hfe
        rw [this]
        simp [foldUpd_nil]
      · rw [Bool.not_eq_true] at hfe
        rw [hfe]
        simp only [Bool.false_eq_true, if_false]

/-- C7 witness: with conservation disabled, activating the unknown id
"ghost" alongside the known id "a" produces exactly the state produced
when "ghost" is removed, the key set is unchanged, and "ghost" gets no
delta entry. -/
theorem C7_unknown_ids_witness :
    ("ghost" ∉ keysOf [("a", (⟨1/2, 49, 0, 1⟩ : CognitiveFile))]) ∧
    (apply_activation [("a", ⟨1/2, 49, 0, 1⟩)] ["ghost", "a"]
      { enable_conservation := false }).2.lookup "ghost" = none ∧
    keysOf (apply_activation [("a", ⟨1/2, 49, 0, 1⟩)] ["ghost", "a"]
      { enable_conservation := false }).1 =
      keysOf [("a", (⟨1/2, 49, 0, 1⟩ : CognitiveFile))] ∧
    apply_activation [("a", ⟨1/2, 49, 0, 1⟩)] ["ghost", "a"]
      { enable_conservation := false } =
      apply_activation [("a", ⟨1/2, 49, 0, 1⟩)]
        (["ghost", "a"].filter (fun p =>
          (([("a", (⟨1/2, 49, 0, 1⟩ : CognitiveFile))] : Files).lookup
            p).isSome)) { enable_conservation := false } := by
  have hmem : "ghost" ∉ keysOf [("a", (⟨1/2, 49, 0, 1⟩ : CognitiveFile))] := by
    unfold keysOf
    decide
  have h := C7_unknown_ids_amended [("a", ⟨1/2, 49, 0, 1⟩)] ["ghost", "a"]
    [] [] { enable_conservation := false }
  exact ⟨hmem, h.2.1 "ghost" hmem, h.1, h.2.2.2.2 rfl⟩

/-- C5: propagation semantics — the delta dict of `propagate_pressure`
is exactly the sum, over the pre-propagation file map, of each source's
contribution (`sourceContrib`: zero unless the source passes the hot
threshold and has outgoing edges; per-edge flow `edge_flow_rate` split
evenly over all outgoing edges times the edge weight, credited to
registered targets and, in conserving mode, debited from the source); and
every registered file's final pressure is its pre-propagation pressure
plus its accumulated delta, clamped into [0,1], applied in one final
pass. -/
theorem C5_propagation_spec (files : Files)
    (adjacency : List (String × List String))
    (edge_weights : List (String × List (String × ℚ)))
    (config : PressureConfig) :
    (∀ t, dget (propagate_pressure files adjacency edge_weights
        config).2 t =
      (files.map (fun pf =>
        sourceContrib files adjacency edge_weights config pf t)).sum) ∧
    (∀ p f, files.lookup p = some f →
      (propagate_pressure files adjacency edge_weights config).1.lookup p =
        some (((propagate_pressure files adjacency edge_weights
            config).2.lookup p).elim f
          (fun d => updateRaw f (max 0 (min 1 (f.raw_pressure + d)))))) := by
  constructor
  · intro t
    unfold propagate_pressure
    rw [dget_sourceFold]
    simp [dget, List.lookup]
  · intro p f hf
    unfold propagate_pressure
    exact applyDeltas_lookup files _ p f
      (nodupKeys_sourceFold files adjacency edge_weights config files []
        List.nodup_nil)
      hf

/-- C5 witness: a hot source "a" with the single edge a→b under the
default config; the characterization instantiated at the target "b" and
the registered file "a". -/
theorem C5_propagation_witness :
    dget (propagate_pressure
        [("a", (⟨9/10, 89, 0, 1⟩ : CognitiveFile)), ("b", ⟨0, 0, 0, 1⟩)]
        [("a", ["b"])] [] {}).2 "b" =
      (([("a", (⟨9/10, 89, 0, 1⟩ : CognitiveFile)),
         ("b", ⟨0, 0, 0, 1⟩)] : Files).map
        (fun pf => sourceContrib
          [("a", ⟨9/10, 89, 0, 1⟩), ("b", ⟨0, 0, 0, 1⟩)]
          [("a", ["b"])] [] {} pf "b")).sum ∧
    (propagate_pressure
        [("a", (⟨9/10, 89, 0, 1⟩ : CognitiveFile)), ("b", ⟨0, 0, 0, 1⟩)]
        [("a", ["b"])] [] {}).1.lookup "a" =
      some (((propagate_pressure
          [("a", (⟨9/10, 89, 0, 1⟩ : CognitiveFile)), ("b", ⟨0, 0, 0, 1⟩)]
          [("a", ["b"])] [] {}).2.lookup "a").elim
        (⟨9/10, 89, 0, 1⟩ : CognitiveFile)
        (fun d => updateRaw ⟨9/10, 89, 0, 1⟩
          (max 0 (min 1 ((9:ℚ)/10 + d))))) := by
  have h := C5_propagation_spec
    [("a", (⟨9/10, 89, 0, 1⟩ : CognitiveFile)), ("b", ⟨0, 0, 0, 1⟩)]
    [("a", ["b"])] [] {}
  exact ⟨h.1 "b", h.2 "a" ⟨9/10, 89, 0, 1⟩ rfl⟩

theorem sum_map_ite_single {x : ℚ} {b : String} {L : List String}
    (hb : b ∈ L) (hnd : L.Nodup) :
    (L.map (fun tg => if tg = b then x else 0)).sum = x := by
  induction L with
  | nil => cases hb
  | cons a rest ih =>
      rw [List.map_cons, List.sum_cons]
      rcases List.mem_cons.mp hb with rfl | hbr
      · rw [if_pos rfl]
        have hnr : b ∉ rest := (List.nodup_cons.mp hnd).1
        have hz : (rest.map (fun tg => if tg = b then x else 0)).sum = 0 := by
          apply List.sum_eq_zero
          intro y hy
          obtain ⟨tg, htg, rfl⟩ := List.mem_map.mp hy
          rw [if_neg (fun e : tg = b => hnr (e ▸ htg))]
        rw [hz]
        ring
      · have hab : a ≠ b := fun e => (List.nodup_cons.mp hnd).1 (e ▸ hbr)
        rw [if_neg hab, ih hbr (List.nodup_cons.mp hnd).2]
        ring

/-- C10: an outgoing edge to an unregistered target `u` is skipped before
any flow is computed — `u` gets no delta entry, the conserving source `s`
loses only the flow to the registered target `b`, and that flow is
`edge_flow_rate / L.length * weight`, whose divisor `L.length` still
counts the unregistered target, so unregistered targets reduce the
source's total outflow. -/
theorem C10_unknown_target_divisor (s b u : String) (f g : CognitiveFile)
    (L : List String)
    (edge_weights : List (String × List (String × ℚ)))
    (config : PressureConfig)
    (hcons : config.enable_conservation = true)
    (hhot : config.min_pressure_to_propagate ≤ f.raw_pressure)
    (hsb : s ≠ b) (hu_s : u ≠ s) (hu_b : u ≠ b)
    (huL : u ∈ L) (hbL : b ∈ L) (hsL : s ∉ L) (hndL : L.Nodup) :
    ((propagate_pressure [(s, f), (b, g)] [(s, L)] edge_weights
        config).2.lookup u = none) ∧
    (dget (propagate_pressure [(s, f), (b, g)] [(s, L)] edge_weights
        config).2 s =
      -(config.edge_flow_rate / (L.length : ℚ) *
        edgeWeight edge_weights s b)) ∧
    (dget (propagate_pressure [(s, f), (b, g)] [(s, L)] edge_weights
        config).2 b =
      config.edge_flow_rate / (L.length : ℚ) *
        edgeWeight edge_weights s b) := by
  have hlen2 : 1 < L.length := by
    cases L with
    | nil => cases huL
    | cons a rest =>
        cases rest with
        | nil =>
            rw [List.mem_singleton] at huL hbL
            exact absurd (huL.trans hbL.symm) hu_b
        | cons c r2 => simp
  have hLne : ¬ L.isEmpty = true := by
    cases L with
    | nil => cases huL
    | cons a rest => simp [List.isEmpty]
  have hlookup_s : (([(s, L)] : List (String × List String)).lookup s) =
      some L := by
    rw [lookup_cons, if_pos rfl]
  have hlookup_bs : (([(s, L)] : List (String × List String)).lookup b) =
      none := by
    rw [lookup_cons, if_neg (fun e => hsb e.symm)]
    rfl
  have hkeys : keysOf [(s, f), (b, g)] = [s, b] := rfl
  have hguard : ¬ (config.hot_propagates = true ∧
      f.raw_pressure < config.min_pressure_to_propagate) :=
    fun hc => (not_lt.mpr hhot) hc.2
  have hb0 : ∀ t, sourceContrib [(s, f), (b, g)] [(s, L)] edge_weights
      config (b, g) t = 0 := by
    intro t
    unfold sourceContrib
    by_cases hg : config.hot_propagates = true ∧
        g.raw_pressure < config.min_pressure_to_propagate
    · rw [if_pos hg]
    · rw [if_neg hg]
      dsimp only
      rw [hlookup_bs]
      simp
  have hlookup_u : (([(s, f), (b, g)] : Files).lookup u) = none := by
    rw [lookup_cons, if_neg hu_s, lookup_cons, if_neg hu_b]
    rfl
  have hlookup_b : (([(s, f), (b, g)] : Files).lookup b) = some g := by
    rw [lookup_cons, if_neg (fun e => hsb e.symm), lookup_cons, if_pos rfl]
  have hsrc : ∀ t, sourceContrib [(s, f), (b, g)] [(s, L)] edge_weights
      config (s, f) t =
      (L.map (fun tg => edgeContrib [(s, f), (b, g)] edge_weights config s
        (config.edge_flow_rate / (L.length : ℚ)) tg t)).sum := by
    intro t
    unfold sourceContrib
    rw [if_neg hguard]
    dsimp only
    rw [hlookup_s]
    simp only [Option.getD_some]
    rw [if_neg (by exact hLne), if_pos hlen2]
  refine ⟨?_, ?_, ?_⟩
  · exact lookup_sourceFold_of_not_key _ _ _ _ _ [] u
      (by rw [hkeys]; simp [hu_s, hu_b])
      (fun pf hpf => List.mem_map_of_mem _ hpf)
  · unfold propagate_pressure
    rw [dget_sourceFold]
    rw [List.map_cons, List.map_cons, List.map_nil, List.sum_cons,
      List.sum_cons, List.sum_nil, hb0, hsrc]
    have hmap : L.map (fun tg => edgeContrib [(s, f), (b, g)] edge_weights
        config s (config.edge_flow_rate / (L.length : ℚ)) tg s) =
        L.map (fun tg => if tg = b then
          -(config.edge_flow_rate / (L.length : ℚ) *
            edgeWeight edge_weights s b) else 0) := by
      apply List.map_congr_left
      intro tg htg
      have htgs : tg ≠ s := fun e => hsL (e ▸ htg)
      unfold edgeContrib
      by_cases htgb : tg = b
      · subst htgb
        rw [hlookup_b]
        simp [hcons, hsb]
      · have hlookup_tg : (([(s, f), (b, g)] : Files).lookup tg) = none := by
          rw [lookup_cons, if_neg htgs, lookup_cons, if_neg htgb]
          rfl
        rw [hlookup_tg]
        simp only [Option.isNone_none, if_true]
        rw [if_neg htgb]
    rw [hmap, sum_map_ite_single hbL hndL]
    simp [dget, List.lookup]
  · unfold propagate_pressure
    rw [dget_sourceFold]
    rw [List.map_cons, List.map_cons, List.map_nil, List.sum_cons,
      List.sum_cons, List.sum_nil, hb0, hsrc]
    have hmap : L.map (fun tg => edgeContrib [(s, f), (b, g)] edge_weights
        config s (config.edge_flow_rate / (L.length : ℚ)) tg b) =
        L.map (fun tg => if tg = b then
          config.edge_flow_rate / (L.length : ℚ) *
            edgeWeight edge_weights s b else 0) := by
      apply List.map_congr_left
      intro tg htg
      have htgs : tg ≠ s := fun e => hsL (e ▸ htg)
      unfold edgeContrib
      by_cases htgb : tg = b
      · subst htgb
        rw [hlookup_b]
        simp [hcons, Ne.symm hsb]
      · have hlookup_tg : (([(s, f), (b, g)] : Files).lookup tg) = none := by
          rw [lookup_cons, if_neg htgs, lookup_cons, if_neg htgb]
          rfl
        rw [hlookup_tg]
        simp only [Option.isNone_none, if_true]
        rw [if_neg htgb]
    rw [hmap, sum_map_ite_single hbL hndL]
    simp [dget, List.lookup]

/-- C10 witness: source "a" (hot, conserving) with outgoing edges to the
registered "b" and the unregistered "ghost": "ghost" gets no entry, "a"
loses 0.15/2 * 1, "b" gains 0.15/2 * 1 — the divisor 2 counts the
unregistered edge. -/
theorem C10_unknown_target_witness :
    ((propagate_pressure
        [("a", (⟨9/10, 89, 0, 1⟩ : CognitiveFile)), ("b", ⟨0, 0, 0, 1⟩)]
        [("a", ["b", "ghost"])] [] {}).2.lookup "ghost" = none) ∧
    (dget (propagate_pressure
        [("a", (⟨9/10, 89, 0, 1⟩ : CognitiveFile)), ("b", ⟨0, 0, 0, 1⟩)]
        [("a", ["b", "ghost"])] [] {}).2 "a" =
      -(({} : PressureConfig).edge_flow_rate /
          ((["b", "ghost"].length : ℕ) : ℚ) *
        edgeWeight [] "a" "b")) ∧
    (dget (propagate_pressure
        [("a", (⟨9/10, 89, 0, 1⟩ : CognitiveFile)), ("b", ⟨0, 0, 0, 1⟩)]
        [("a", ["b", "ghost"])] [] {}).2 "b" =
      ({} : PressureConfig).edge_flow_rate /
          ((["b", "ghost"].length : ℕ) : ℚ) *
        edgeWeight [] "a" "b") := by
  have h := C10_unknown_target_divisor "a" "b" "ghost"
    ⟨9/10, 89, 0, 1⟩ ⟨0, 0, 0, 1⟩ ["b", "ghost"] [] {}
    rfl (by norm_num) (by decide) (by decide) (by decide)
    (by decide) (by decide) (by decide) (by decide)
  exact h

end Hologram
